import Mathlib

/-!
Verification of the batch expectation engine in
`tensorflow_quantum/core/ops/tfq_simulate_expectation_op_cuda.cu.cc`.

The file shallowly embeds the orchestration code of the op:

* `runObs`, `stepCircuit`, `runCircuits`, `computeLarge` embed the private
  member `TfqSimulateExpectationOpCuda::ComputeLarge` (the sequential
  simulation pass with the adaptively grown state buffer, the `-2.0`
  sentinel for empty fused circuits, and the abort on a failing
  expectation).
* `runConstruction`, `constructAll`, `buildIdx`, `tfqCompute` embed
  `TfqSimulateExpectationOpCuda::Compute` (input validation, output
  allocation, parallel circuit construction with the mutex-guarded
  first-failure status, and the hand-off to `ComputeLarge`).
* `setShapeFn` embeds the shape function of `REGISTER_OP`.

The qsim state-vector primitives (`StateSpace::Create`, `SetStateZero`,
`ApplyFusedGate`, `ComputeExpectationQsim`) and the protobuf parsing are
external collaborators of the op (the spec declares them out of scope), so
they appear as an abstract operation record `SimOps` together with the
collaborator laws (`SimLaws`, `CapIndep`) that the spec attributes to them.
The parallel `ParallelFor` execution of the construction lambda is embedded
by a serialization `order : List Nat` of the per-item bodies: each item
writes only its own slot, and the mutex serializes the status updates, so
every interleaving of chunked workers is one such order.
-/

namespace TfqExpectationCuda

/-- The host-allocated `B×M` output tensor `output_tensor`, as a total cell
map; the allocated shape is tracked separately in `ComputeTrace`. -/
abbrev Mat : Type := Nat → Nat → ℚ

/-- A single write `(*output_tensor)(i, j) = v`. -/
def writeCell (out : Mat) (i j : Nat) (v : ℚ) : Mat :=
  fun r q => if r = i ∧ q = j then v else out r q

/-- The external qsim collaborators used by `ComputeLarge`:
`StateSpace::Create`, `StateSpace::SetStateZero`, `qsim::ApplyFusedGate`
and `tfq::ComputeExpectationQsim` (which takes the state buffer and the
scratch buffer and yields a scalar or an error status). -/
structure SimOps (State Gate Pauli Err : Type) where
  create : Nat → State
  setStateZero : State → State
  applyFusedGate : Gate → State → State
  computeExpectation : Pauli → State → State → Except Err ℚ

/-- Per-circuit data consumed by `ComputeLarge`: `num_qubits[i]`,
`fused_circuits[i]` and `pauli_sums[i]`. -/
structure CircuitData (Gate Pauli : Type) where
  num_qubits : Nat
  fused_circuit : List Gate
  pauli_sums : List Pauli

/-- The mutable loop state of `ComputeLarge`: `largest_nq`, `sv`,
`scratch`, and the output tensor written so far. -/
structure LoopSt (State : Type) where
  largest_nq : Nat
  sv : State
  scratch : State
  out : Mat

variable {State Gate Pauli Err Prog SymbolMap Circ : Type}

/-- `for (j = 0; j < fused_circuits[i].size(); j++) ApplyFusedGate(...)`. -/
def applyAll (ops : SimOps State Gate Pauli Err) (gates : List Gate) (sv : State) : State :=
  gates.foldl (fun s g => ops.applyFusedGate g s) sv

/-- The inner `j` loop of `ComputeLarge` over `pauli_sums[i]`: writes the
`-2.0` sentinel when the fused circuit is empty, otherwise calls the
expectation primitive and aborts the pass on its first error (the
`OP_REQUIRES_OK` return happens before the cell write). -/
def runObs (ops : SimOps State Gate Pauli Err) (i : Nat) (fused : List Gate)
    (sv scratch : State) : List Pauli → Nat → Mat → Mat × Option Err
  | [], _, out => (out, none)
  | p :: ps, j, out =>
    if fused.isEmpty then
      runObs ops i fused sv scratch ps (j + 1) (writeCell out i j (-2))
    else
      match ops.computeExpectation p sv scratch with
      | .error e => (out, some e)
      | .ok v => runObs ops i fused sv scratch ps (j + 1) (writeCell out i j v)

/-- The buffer-growth step at the top of the `i` loop: when
`nq > largest_nq` both buffers are recreated at `nq`, otherwise the state
is kept. -/
def grownSt (ops : SimOps State Gate Pauli Err) (c : CircuitData Gate Pauli)
    (st : LoopSt State) : LoopSt State :=
  if c.num_qubits > st.largest_nq then
    ⟨c.num_qubits, ops.create c.num_qubits, ops.create c.num_qubits, st.out⟩
  else st

/-- The state buffer right before the observable loop of circuit `i`:
grown if needed, `SetStateZero`, then all fused gates applied. -/
def circuitState (ops : SimOps State Gate Pauli Err) (c : CircuitData Gate Pauli)
    (st : LoopSt State) : State :=
  applyAll ops c.fused_circuit (ops.setStateZero (grownSt ops c st).sv)

/-- One iteration of the `i` loop of `ComputeLarge`. -/
def stepCircuit (ops : SimOps State Gate Pauli Err) (i : Nat)
    (c : CircuitData Gate Pauli) (st : LoopSt State) : LoopSt State × Option Err :=
  let g := grownSt ops c st
  let sv2 := circuitState ops c st
  match runObs ops i c.fused_circuit sv2 g.scratch c.pauli_sums 0 g.out with
  | (out2, err) => (⟨g.largest_nq, sv2, g.scratch, out2⟩, err)

/-- The `i` loop of `ComputeLarge`; a failing `OP_REQUIRES_OK` returns from
the member function, so an error stops all later circuits. -/
def runCircuits (ops : SimOps State Gate Pauli Err) :
    Nat → List (CircuitData Gate Pauli) → LoopSt State → LoopSt State × Option Err
  | _, [], st => (st, none)
  | i, c :: cs, st =>
    match stepCircuit ops i c st with
    | (st1, some e) => (st1, some e)
    | (st1, none) => runCircuits ops (i + 1) cs st1

/-- `TfqSimulateExpectationOpCuda::ComputeLarge`: `largest_nq = 1`, both
buffers created at one qubit, then the sequential pass. -/
def computeLarge (ops : SimOps State Gate Pauli Err)
    (circuits : List (CircuitData Gate Pauli)) (out0 : Mat) : LoopSt State × Option Err :=
  runCircuits ops 0 circuits ⟨1, ops.create 1, ops.create 1, out0⟩

/-- The cells the observable loop actually writes for one circuit, in
column order: all `-2` sentinels for an empty fused circuit, otherwise the
expectation values up to (excluding) the first failing term. -/
def rowCells (ops : SimOps State Gate Pauli Err) (fused : List Gate)
    (sv scratch : State) : List Pauli → List ℚ
  | [] => []
  | p :: ps =>
    if fused.isEmpty then -2 :: rowCells ops fused sv scratch ps
    else
      match ops.computeExpectation p sv scratch with
      | .error _ => []
      | .ok v => v :: rowCells ops fused sv scratch ps

/-- The status the observable loop of one circuit ends with: the first
error of the expectation primitive, if any (never consulted for an empty
fused circuit). -/
def rowErr (ops : SimOps State Gate Pauli Err) (fused : List Gate)
    (sv scratch : State) : List Pauli → Option Err
  | [] => none
  | p :: ps =>
    if fused.isEmpty then rowErr ops fused sv scratch ps
    else
      match ops.computeExpectation p sv scratch with
      | .error e => some e
      | .ok _ => rowErr ops fused sv scratch ps

/-- Modelled from the spec: `NESTED_FN_STATUS_SYNC` (declared in
`tensorflow_quantum/core/src/util_qsim.h`, outside the sources at hand)
records a failing local status into the mutex-guarded shared status and
never overwrites a pre-existing error (first-failure-wins). -/
def statusMerge (status : Option Err) (e : Err) : Option Err :=
  match status with
  | none => some e
  | some e0 => some e0

/-- The serialized execution of the construction lambda `construct_f`
over the item order `order`: each item `i` runs
`QsimCircuitFromProgram(programs[i], maps[i], num_qubits[i], ...)`,
stores its result in its own slot `i`, and merges a failure into the
shared status. -/
def runConstruction (build : Nat → Except Err Circ) :
    List Nat → (Nat → Option Circ) × Option Err → (Nat → Option Circ) × Option Err
  | [], acc => acc
  | i :: rest, acc =>
    match build i with
    | .ok c => runConstruction build rest
        (fun k => if k = i then some c else acc.1 k, acc.2)
    | .error e => runConstruction build rest (acc.1, statusMerge acc.2 e)

/-- `ParallelFor(programs.size(), num_cycles, construct_f)` followed by
reading `parse_status`: all items run, starting from empty slots and an OK
status. -/
def constructAll (build : Nat → Except Err Circ) (order : List Nat) :
    (Nat → Option Circ) × Option Err :=
  runConstruction build order (fun _ => none, none)

/-- The first failing item of an item order, i.e. the status the
mutex-serialized first-failure-wins aggregation ends with. -/
def firstFailure (build : Nat → Except Err Circ) : List Nat → Option Err
  | [] => none
  | i :: rest =>
    match build i with
    | .error e => some e
    | .ok _ => firstFailure build rest

/-- The status of the whole op: OK (`none`), an `InvalidArgument` raised
by the op itself, or a collaborator status propagated by
`OP_REQUIRES_OK`. -/
inductive TfStatus (Err : Type) where
  | invalidArgument : TfStatus Err
  | nested : Err → TfStatus Err
deriving DecidableEq

/-- The four input tensors of the op after deserialization: `num_inputs`
from the kernel context, input 0 (`programs`, `B` entries), input 2 rows
as per-circuit symbol maps, input 3 (`pauli_sums`, `B × M`) together with
its dimension 1. -/
structure RawInputs (Prog SymbolMap Pauli : Type) where
  num_inputs : Nat
  programs : List Prog
  symbol_maps : List SymbolMap
  pauli_sums : List (List Pauli)
  pauli_dim1 : Nat

/-- Modelled from the spec: `GetProgramsAndNumQubits` (declared in
`parse_context.h`, outside the sources at hand) deserializes the program
and observable batches, computes each program's qubit count, and enforces
that the row counts of the batched inputs are consistent, failing with an
argument error otherwise. -/
def getProgramsAndNumQubits (numQubitsOf : Prog → Nat)
    (raw : RawInputs Prog SymbolMap Pauli) :
    Except Unit (List Prog × List Nat × List (List Pauli)) :=
  if raw.programs.length = raw.pauli_sums.length then
    .ok (raw.programs, raw.programs.map numQubitsOf, raw.pauli_sums)
  else .error ()

/-- The body run for item `i` of the construction loop:
`QsimCircuitFromProgram(programs[i], maps[i], num_qubits[i], ...)`, whose
two output arguments `&qsim_circuits[i]` and `&fused_circuits[i]` are the
components of the returned pair. -/
def buildIdx [Inhabited Prog] [Inhabited SymbolMap]
    (buildF : Prog → SymbolMap → Nat → Except Err (Circ × List Gate))
    (numQubitsOf : Prog → Nat) (raw : RawInputs Prog SymbolMap Pauli)
    (i : Nat) : Except Err (Circ × List Gate) :=
  buildF (raw.programs.getD i default) (raw.symbol_maps.getD i default)
    ((raw.programs.map numQubitsOf).getD i 0)

/-- The per-circuit data handed from `Compute` to
`ComputeLarge(num_qubits, fused_circuits, pauli_sums, ...)`: the loop runs
over `fused_circuits.size() == programs.size()` and indexes the three
vectors at `i` (a never-built slot reads as an empty fused circuit). -/
def simCircuits (programs : List Prog) (num_qubits : List Nat)
    (pauli_sums : List (List Pauli)) (slots : Nat → Option (Circ × List Gate)) :
    List (CircuitData Gate Pauli) :=
  (List.range programs.length).map (fun i =>
    ⟨num_qubits.getD i 0, ((slots i).map Prod.snd).getD [], pauli_sums.getD i []⟩)

/-- Everything observable about one invocation of `Compute`: the final op
status, the allocated output shape (if allocation was reached), the
construction slots, whether `ComputeLarge` ran, and the final simulation
state (capacity, buffers, output cells). -/
structure ComputeTrace (State Circ Gate Err : Type) where
  status : Option (TfStatus Err)
  outShape : Option (Nat × Nat)
  built : Nat → Option (Circ × List Gate)
  simRan : Bool
  final : LoopSt State

/-- The tail of `Compute` after the parse calls succeeded (`programs`,
`num_qubits`, `pauli_sums` are their outputs): the
`programs.size() == maps.size()` check, the parallel construction over the
item order `order`, the `OP_REQUIRES_OK(parse_status)` barrier check, and
the hand-off to `ComputeLarge`. -/
def afterParse [Inhabited Prog] [Inhabited SymbolMap]
    (ops : SimOps State Gate Pauli Err) (numQubitsOf : Prog → Nat)
    (buildF : Prog → SymbolMap → Nat → Except Err (Circ × List Gate))
    (raw : RawInputs Prog SymbolMap Pauli) (order : List Nat) (out0 : Mat)
    (programs : List Prog) (num_qubits : List Nat)
    (pauli_sums : List (List Pauli)) : ComputeTrace State Circ Gate Err :=
  if programs.length ≠ raw.symbol_maps.length then
    ⟨some .invalidArgument, some (raw.programs.length, raw.pauli_dim1),
      fun _ => none, false, ⟨1, ops.create 1, ops.create 1, out0⟩⟩
  else
    match constructAll (buildIdx buildF numQubitsOf raw) order with
    | (slots, some e) =>
        ⟨some (.nested e), some (raw.programs.length, raw.pauli_dim1),
          slots, false, ⟨1, ops.create 1, ops.create 1, out0⟩⟩
    | (slots, none) =>
        let circuits := simCircuits programs num_qubits pauli_sums slots
        match runCircuits ops 0 circuits ⟨1, ops.create 1, ops.create 1, out0⟩ with
        | (st, err) =>
            ⟨err.map .nested, some (raw.programs.length, raw.pauli_dim1),
              slots, true, st⟩

/-- `TfqSimulateExpectationOpCuda::Compute`: check `num_inputs == 4`,
allocate the `B × M` output (`B` from dimension 0 of input 0, `M` from
dimension 1 of input 3), parse, then `afterParse`.
(The local `max_num_qubits` of lines 110–113 is computed and never used,
so it is omitted.) -/
def tfqCompute [Inhabited Prog] [Inhabited SymbolMap]
    (ops : SimOps State Gate Pauli Err) (numQubitsOf : Prog → Nat)
    (buildF : Prog → SymbolMap → Nat → Except Err (Circ × List Gate))
    (raw : RawInputs Prog SymbolMap Pauli) (order : List Nat) (out0 : Mat) :
    ComputeTrace State Circ Gate Err :=
  if raw.num_inputs ≠ 4 then
    ⟨some .invalidArgument, none, fun _ => none, false,
      ⟨1, ops.create 1, ops.create 1, out0⟩⟩
  else
    match getProgramsAndNumQubits numQubitsOf raw with
    | .error _ =>
        ⟨some .invalidArgument, some (raw.programs.length, raw.pauli_dim1),
          fun _ => none, false, ⟨1, ops.create 1, ops.create 1, out0⟩⟩
    | .ok parsed =>
        afterParse ops numQubitsOf buildF raw order out0
          parsed.1 parsed.2.1 parsed.2.2

/-- The `SetShapeFn` of `REGISTER_OP("TfqSimulateExpectationCuda")`:
ranks 1, 1, 2, 2 for the four inputs, and output shape
`Matrix(programs_shape[0], pauli_sums_shape[1])`; each shape is its list
of dimensions. -/
def setShapeFn (programs_shape symbol_names_shape symbol_values_shape
    pauli_sums_shape : List Nat) : Except Unit (Nat × Nat) :=
  if programs_shape.length = 1 then
    if symbol_names_shape.length = 1 then
      if symbol_values_shape.length = 2 then
        if pauli_sums_shape.length = 2 then
          .ok (programs_shape.getD 0 0, pauli_sums_shape.getD 1 0)
        else .error ()
      else .error ()
    else .error ()
  else .error ()

/-- Ghost capacity tracking and the collaborator laws the spec assumes of
the state-space primitives: `Create n` yields an `n`-qubit buffer,
zeroing and gate application keep the buffer's size, and `SetStateZero`
erases a buffer's history (two buffers of the same size zero to the same
all-zero state). `capOf` is the qubit count of a buffer. -/
structure SimLaws (ops : SimOps State Gate Pauli Err) (capOf : State → Nat) : Prop where
  cap_create : ∀ n, capOf (ops.create n) = n
  cap_zero : ∀ s, capOf (ops.setStateZero s) = capOf s
  cap_apply : ∀ g s, capOf (ops.applyFusedGate g s) = capOf s
  zero_congr : ∀ s t, capOf s = capOf t → ops.setStateZero s = ops.setStateZero t

/-- The state reached by zeroing a freshly created `cap`-qubit buffer and
applying a fused gate list to it. -/
def freshState (ops : SimOps State Gate Pauli Err) (cap : Nat) (gates : List Gate) : State :=
  applyAll ops gates (ops.setStateZero (ops.create cap))

/-- The collaborator law behind the growth-correctness property of the
spec: the expectation of each of the circuit's observables is unchanged
when the circuit runs in a zeroed buffer of any capacity at least its own
qubit count, and does not depend on the scratch buffer's contents. -/
def CapIndep (ops : SimOps State Gate Pauli Err) (c : CircuitData Gate Pauli) : Prop :=
  ∀ p ∈ c.pauli_sums, ∀ cap, c.num_qubits ≤ cap → ∀ scr scr' : State,
    ops.computeExpectation p (freshState ops cap c.fused_circuit) scr =
      ops.computeExpectation p (freshState ops c.num_qubits c.fused_circuit) scr'

/-- Spec-side definition for the refinement claim: simulate one circuit
alone, in a freshly allocated state buffer and scratch buffer of exactly
its own qubit count, zero the state, apply the fused gates, then run the
observable loop into row 0 of a blank output. -/
def simulateAlone (ops : SimOps State Gate Pauli Err)
    (c : CircuitData Gate Pauli) : Mat × Option Err :=
  runObs ops 0 c.fused_circuit (freshState ops c.num_qubits c.fused_circuit)
    (ops.create c.num_qubits) c.pauli_sums 0 (fun _ _ => 0)

/-! ### A concrete collaborator instance

`cOps` is a small executable model of the state-space primitives used to
exhibit that the collaborator laws are satisfiable: a buffer is its qubit
capacity together with the list of gates applied since the last zeroing,
and the expectation of observable `p` is derived from `p` and that gate
history only. `eOps` is the same model with a failing observable `7`. -/

def cOps : SimOps (Nat × List Nat) Nat Nat Unit where
  create n := (n, [])
  setStateZero s := (s.1, [])
  applyFusedGate g s := (s.1, s.2 ++ [g])
  computeExpectation p sv _ := .ok ((p + sv.2.sum : Nat) : ℚ)

def eOps : SimOps (Nat × List Nat) Nat Nat Unit where
  create n := (n, [])
  setStateZero s := (s.1, [])
  applyFusedGate g s := (s.1, s.2 ++ [g])
  computeExpectation p sv _ :=
    if p = 7 then .error () else .ok ((p + sv.2.sum : Nat) : ℚ)

/-- Capacity observer for the concrete instances. -/
def cCap : Nat × List Nat → Nat := Prod.fst

lemma cOps_laws : SimLaws cOps cCap := by
  refine ⟨fun n => rfl, fun s => rfl, fun g s => rfl, ?_⟩
  intro s t h
  show (s.1, ([] : List Nat)) = (t.1, [])
  rw [show s.1 = t.1 from h]

lemma cOps_applyAll_snd (gs : List Nat) :
    ∀ s : Nat × List Nat, (applyAll cOps gs s).2 = s.2 ++ gs := by
  induction gs with
  | nil => intro s; simp [applyAll]
  | cons g gs ih =>
      intro s
      simpa [applyAll, cOps] using ih (s.1, s.2 ++ [g])

lemma cOps_capIndep (c : CircuitData Nat Nat) : CapIndep cOps c := by
  intro p _ cap _ scr scr'
  have h1 : (freshState cOps cap c.fused_circuit).2 = c.fused_circuit := by
    simpa [freshState, cOps] using cOps_applyAll_snd c.fused_circuit (cap, [])
  have h2 : (freshState cOps c.num_qubits c.fused_circuit).2 = c.fused_circuit := by
    simpa [freshState, cOps] using cOps_applyAll_snd c.fused_circuit (c.num_qubits, [])
  have hexp : ∀ sv scr : Nat × List Nat,
      cOps.computeExpectation p sv scr = .ok ((p + sv.2.sum : Nat) : ℚ) :=
    fun _ _ => rfl
  rw [hexp, hexp, h1, h2]

/-! ### Characterization of the observable loop -/

lemma writeCell_eq (out : Mat) (i j : Nat) (v : ℚ) (r q : Nat) :
    writeCell out i j v r q = if r = i ∧ q = j then v else out r q := rfl

lemma ite_shift (out : Mat) (i j0 q r : Nat) (v : ℚ) (RC : List ℚ) :
    (if r = i ∧ j0 + 1 ≤ q ∧ q < j0 + 1 + RC.length
      then RC.getD (q - (j0 + 1)) 0
      else writeCell out i j0 v r q) =
      if r = i ∧ j0 ≤ q ∧ q < j0 + (RC.length + 1)
      then (v :: RC).getD (q - j0) 0
      else out r q := by
  by_cases hr : r = i
  · by_cases hq0 : q = j0
    · subst hq0
      rw [if_neg (by omega), writeCell_eq, if_pos ⟨hr, rfl⟩, if_pos ⟨hr, by omega⟩]
      simp
    · by_cases hin : j0 + 1 ≤ q ∧ q < j0 + 1 + RC.length
      · rw [if_pos ⟨hr, hin⟩, if_pos ⟨hr, by omega⟩]
        have hq : q - j0 = (q - (j0 + 1)) + 1 := by omega
        rw [hq, List.getD_cons_succ]
      · rw [if_neg (fun h => hin h.2), writeCell_eq, if_neg (fun h => hq0 h.2),
          if_neg (fun h => hin ⟨by omega, by omega⟩)]
  · rw [if_neg (fun h => hr h.1), writeCell_eq, if_neg (fun h => hr h.1),
      if_neg (fun h => hr h.1)]

/-- What the observable loop does to the output tensor: it writes
`rowCells` into row `i` starting at column `j0`, and touches nothing
else. -/
lemma runObs_fst (ops : SimOps State Gate Pauli Err) (i : Nat) (fused : List Gate)
    (sv scratch : State) :
    ∀ ps (j0 : Nat) (out : Mat) (r q : Nat),
      (runObs ops i fused sv scratch ps j0 out).1 r q =
        if r = i ∧ j0 ≤ q ∧ q < j0 + (rowCells ops fused sv scratch ps).length
        then (rowCells ops fused sv scratch ps).getD (q - j0) 0
        else out r q := by
  intro ps
  induction ps with
  | nil =>
      intro j0 out r q
      rw [if_neg (by simp [rowCells])]
      rfl
  | cons p ps ih =>
      intro j0 out r q
      cases hfe : fused.isEmpty with
      | true =>
          have hrun : runObs ops i fused sv scratch (p :: ps) j0 out =
              runObs ops i fused sv scratch ps (j0 + 1) (writeCell out i j0 (-2)) := by
            simp [runObs, hfe]
          have hrc : rowCells ops fused sv scratch (p :: ps) =
              -2 :: rowCells ops fused sv scratch ps := by
            simp [rowCells, hfe]
          rw [hrun, ih, hrc, List.length_cons]
          exact ite_shift out i j0 q r (-2) _
      | false =>
          cases hexp : ops.computeExpectation p sv scratch with
          | error e =>
              have hrun : runObs ops i fused sv scratch (p :: ps) j0 out = (out, some e) := by
                simp [runObs, hfe, hexp]
              have hrc : rowCells ops fused sv scratch (p :: ps) = [] := by
                simp [rowCells, hfe, hexp]
              rw [hrun, hrc, if_neg (by simp)]
          | ok v =>
              have hrun : runObs ops i fused sv scratch (p :: ps) j0 out =
                  runObs ops i fused sv scratch ps (j0 + 1) (writeCell out i j0 v) := by
                simp [runObs, hfe, hexp]
              have hrc : rowCells ops fused sv scratch (p :: ps) =
                  v :: rowCells ops fused sv scratch ps := by
                simp [rowCells, hfe, hexp]
              rw [hrun, ih, hrc, List.length_cons]
              exact ite_shift out i j0 q r v _

/-- The status the observable loop returns is the first error of the
expectation primitive on the row's terms. -/
lemma runObs_snd (ops : SimOps State Gate Pauli Err) (i : Nat) (fused : List Gate)
    (sv scratch : State) :
    ∀ ps (j0 : Nat) (out : Mat),
      (runObs ops i fused sv scratch ps j0 out).2 = rowErr ops fused sv scratch ps := by
  intro ps
  induction ps with
  | nil => intro j0 out; rfl
  | cons p ps ih =>
      intro j0 out
      cases hfe : fused.isEmpty with
      | true => simp [runObs, rowErr, hfe, ih]
      | false =>
          cases hexp : ops.computeExpectation p sv scratch with
          | error e => simp [runObs, rowErr, hfe, hexp]
          | ok v => simp [runObs, rowErr, hfe, hexp, ih]

lemma rowErr_none_length (ops : SimOps State Gate Pauli Err) (fused : List Gate)
    (sv scratch : State) :
    ∀ ps, rowErr ops fused sv scratch ps = none →
      (rowCells ops fused sv scratch ps).length = ps.length := by
  intro ps
  induction ps with
  | nil => intro _; rfl
  | cons p ps ih =>
      intro h
      cases hfe : fused.isEmpty with
      | true =>
          rw [rowErr] at h
          simp [hfe] at h
          simp [rowCells, hfe, ih h]
      | false =>
          rw [rowErr] at h
          cases hexp : ops.computeExpectation p sv scratch with
          | error e => simp [hfe, hexp] at h
          | ok v =>
              simp [hfe, hexp] at h
              simp [rowCells, hfe, hexp, ih h]

/-- Cells for an empty fused circuit: one `-2` sentinel per observable,
never an error. -/
lemma rowCells_empty (ops : SimOps State Gate Pauli Err)
    (sv scratch : State) :
    ∀ ps, rowCells ops ([] : List Gate) sv scratch ps = ps.map (fun _ => (-2 : ℚ)) ∧
      rowErr ops ([] : List Gate) sv scratch ps = none := by
  intro ps
  induction ps with
  | nil => exact ⟨rfl, rfl⟩
  | cons p ps ih => simpa [rowCells, rowErr] using ih

/-- The row a circuit produces depends on the expectation primitive's
results on its own terms only. -/
lemma rowCells_congr (ops : SimOps State Gate Pauli Err) (fused : List Gate)
    (sv scr sv' scr' : State) :
    ∀ ps, (∀ p ∈ ps, ops.computeExpectation p sv scr = ops.computeExpectation p sv' scr') →
      rowCells ops fused sv scr ps = rowCells ops fused sv' scr' ps ∧
        rowErr ops fused sv scr ps = rowErr ops fused sv' scr' ps := by
  intro ps
  induction ps with
  | nil => intro _; exact ⟨rfl, rfl⟩
  | cons p ps ih =>
      intro h
      have hp := h p (List.mem_cons_self p ps)
      have ht := ih (fun p' hp' => h p' (List.mem_cons_of_mem p hp'))
      cases hfe : fused.isEmpty with
      | true => simp [rowCells, rowErr, hfe, ht.1, ht.2]
      | false =>
          cases hexp : ops.computeExpectation p sv' scr' with
          | error e => simp [rowCells, rowErr, hfe, hp, hexp]
          | ok v => simp [rowCells, rowErr, hfe, hp, hexp, ht.1, ht.2]

/-! ### Lemmas about the sequential circuit loop -/

lemma stepCircuit_eq (ops : SimOps State Gate Pauli Err) (i : Nat)
    (c : CircuitData Gate Pauli) (st : LoopSt State) :
    stepCircuit ops i c st =
      (⟨(grownSt ops c st).largest_nq, circuitState ops c st, (grownSt ops c st).scratch,
          (runObs ops i c.fused_circuit (circuitState ops c st) (grownSt ops c st).scratch
            c.pauli_sums 0 (grownSt ops c st).out).1⟩,
        (runObs ops i c.fused_circuit (circuitState ops c st) (grownSt ops c st).scratch
          c.pauli_sums 0 (grownSt ops c st).out).2) := rfl

lemma grownSt_out (ops : SimOps State Gate Pauli Err) (c : CircuitData Gate Pauli)
    (st : LoopSt State) : (grownSt ops c st).out = st.out := by
  rw [grownSt]
  split <;> rfl

lemma grownSt_cap (ops : SimOps State Gate Pauli Err) (c : CircuitData Gate Pauli)
    (st : LoopSt State) :
    (grownSt ops c st).largest_nq = max st.largest_nq c.num_qubits := by
  rw [grownSt]
  split
  case isTrue h => exact (Nat.max_eq_right h.le).symm
  case isFalse h => exact (Nat.max_eq_left (Nat.le_of_not_lt h)).symm

lemma stepCircuit_cap (ops : SimOps State Gate Pauli Err) (i : Nat)
    (c : CircuitData Gate Pauli) (st : LoopSt State) :
    (stepCircuit ops i c st).1.largest_nq = max st.largest_nq c.num_qubits := by
  rw [stepCircuit_eq]
  exact grownSt_cap ops c st

/-- A circuit step leaves every row other than its own untouched. -/
lemma stepCircuit_out_ne (ops : SimOps State Gate Pauli Err) (i : Nat)
    (c : CircuitData Gate Pauli) (st : LoopSt State) (r q : Nat) (h : r ≠ i) :
    (stepCircuit ops i c st).1.out r q = st.out r q := by
  rw [stepCircuit_eq]
  show (runObs ops i c.fused_circuit _ _ c.pauli_sums 0 (grownSt ops c st).out).1 r q = _
  rw [runObs_fst, if_neg (fun hc => h hc.1), grownSt_out]

lemma runCircuits_append_ok (ops : SimOps State Gate Pauli Err) :
    ∀ (xs ys : List (CircuitData Gate Pauli)) (i : Nat) (st st1 : LoopSt State),
      runCircuits ops i xs st = (st1, none) →
      runCircuits ops i (xs ++ ys) st = runCircuits ops (i + xs.length) ys st1 := by
  intro xs
  induction xs with
  | nil =>
      intro ys i st st1 h
      have : st1 = st := congrArg Prod.fst h.symm
      subst this
      simp [runCircuits]
  | cons c cs ih =>
      intro ys i st st1 h
      rw [runCircuits] at h
      rw [List.cons_append, runCircuits]
      cases hstep : stepCircuit ops i c st with
      | mk st2 err =>
          rw [hstep] at h
          cases err with
          | some e => exact absurd (congrArg Prod.snd h) (by simp)
          | none =>
              have hgoal : runCircuits ops (i + 1) (cs ++ ys) st2 =
                  runCircuits ops (i + 1 + cs.length) ys st1 := ih ys (i + 1) st2 st1 h
              have harith : i + 1 + cs.length = i + (c :: cs).length := by
                rw [List.length_cons]; omega
              rw [harith] at hgoal
              exact hgoal

lemma runCircuits_append_err (ops : SimOps State Gate Pauli Err) :
    ∀ (xs ys : List (CircuitData Gate Pauli)) (i : Nat) (st st1 : LoopSt State) (e : Err),
      runCircuits ops i xs st = (st1, some e) →
      runCircuits ops i (xs ++ ys) st = (st1, some e) := by
  intro xs
  induction xs with
  | nil =>
      intro ys i st st1 e h
      exact absurd (congrArg Prod.snd h) (by simp [runCircuits])
  | cons c cs ih =>
      intro ys i st st1 e h
      rw [runCircuits] at h
      rw [List.cons_append, runCircuits]
      cases hstep : stepCircuit ops i c st with
      | mk st2 err =>
          rw [hstep] at h
          cases err with
          | some e2 => exact h
          | none => exact ih ys (i + 1) st2 st1 e h

/-- The circuit loop starting at index `i` over `cs` writes only rows in
`[i, i + cs.length)`. -/
lemma runCircuits_out_frame (ops : SimOps State Gate Pauli Err) :
    ∀ (cs : List (CircuitData Gate Pauli)) (i : Nat) (st : LoopSt State) (r q : Nat),
      (r < i ∨ i + cs.length ≤ r) →
      (runCircuits ops i cs st).1.out r q = st.out r q := by
  intro cs
  induction cs with
  | nil => intro i st r q _; rfl
  | cons c cs ih =>
      intro i st r q h
      rw [runCircuits]
      cases hstep : stepCircuit ops i c st with
      | mk st2 err =>
          have hr : r ≠ i := by
            rw [List.length_cons] at h
            omega
          have hout : st2.out r q = st.out r q := by
            have := stepCircuit_out_ne ops i c st r q hr
            rw [hstep] at this
            exact this
          cases err with
          | some e => exact hout
          | none =>
              rw [ih (i + 1) st2 r q (by rw [List.length_cons] at h; omega)]
              exact hout

lemma runCircuits_cap_mono (ops : SimOps State Gate Pauli Err) :
    ∀ (cs : List (CircuitData Gate Pauli)) (i : Nat) (st : LoopSt State),
      st.largest_nq ≤ (runCircuits ops i cs st).1.largest_nq := by
  intro cs
  induction cs with
  | nil => intro i st; exact Nat.le_refl _
  | cons c cs ih =>
      intro i st
      rw [runCircuits]
      cases hstep : stepCircuit ops i c st with
      | mk st2 err =>
          have hcap : st.largest_nq ≤ st2.largest_nq := by
            have := stepCircuit_cap ops i c st
            rw [hstep] at this
            simp at this
            rw [this]
            exact Nat.le_max_left _ _
          cases err with
          | some e => exact hcap
          | none => exact Nat.le_trans hcap (ih (i + 1) st2)

/-- On an error-free pass the final capacity folds `max` over the
circuits' qubit counts. -/
lemma runCircuits_cap_of_none (ops : SimOps State Gate Pauli Err) :
    ∀ (cs : List (CircuitData Gate Pauli)) (i : Nat) (st : LoopSt State),
      (runCircuits ops i cs st).2 = none →
      (runCircuits ops i cs st).1.largest_nq =
        cs.foldl (fun a c => max a c.num_qubits) st.largest_nq := by
  intro cs
  induction cs with
  | nil => intro i st _; rfl
  | cons c cs ih =>
      intro i st h
      rw [runCircuits] at h ⊢
      cases hstep : stepCircuit ops i c st with
      | mk st2 err =>
          rw [hstep] at h
          have hcap : st2.largest_nq = max st.largest_nq c.num_qubits := by
            have := stepCircuit_cap ops i c st
            rw [hstep] at this
            exact this
          cases err with
          | some e => simp at h
          | none =>
              rw [List.foldl_cons, ih (i + 1) st2 h, hcap]

/-! ### Refinement: batch rows against isolated simulation -/

lemma capOf_applyAll (ops : SimOps State Gate Pauli Err) (capOf : State → Nat)
    (L : SimLaws ops capOf) (gates : List Gate) :
    ∀ s, capOf (applyAll ops gates s) = capOf s := by
  induction gates with
  | nil => intro s; rfl
  | cons g gs ih =>
      intro s
      have h1 : applyAll ops (g :: gs) s = applyAll ops gs (ops.applyFusedGate g s) := rfl
      rw [h1, ih, L.cap_apply]

lemma grownSt_capOf (ops : SimOps State Gate Pauli Err) (capOf : State → Nat)
    (L : SimLaws ops capOf) (c : CircuitData Gate Pauli) (st : LoopSt State)
    (hsv : capOf st.sv = st.largest_nq) :
    capOf (grownSt ops c st).sv = (grownSt ops c st).largest_nq := by
  rw [grownSt]
  split
  · exact L.cap_create _
  · exact hsv

/-- Under the collaborator laws, the state a circuit's observables are
evaluated against is the zeroed-and-run state of a fresh buffer of the
current capacity: the reused buffer carries no history into the row. -/
lemma stepCircuit_state (ops : SimOps State Gate Pauli Err) (capOf : State → Nat)
    (L : SimLaws ops capOf) (c : CircuitData Gate Pauli) (st : LoopSt State)
    (hsv : capOf st.sv = st.largest_nq) :
    circuitState ops c st =
      freshState ops (grownSt ops c st).largest_nq c.fused_circuit := by
  rw [circuitState, freshState]
  congr 1
  exact L.zero_congr _ _ (by rw [grownSt_capOf ops capOf L c st hsv, L.cap_create])

/-- Main refinement induction: on an error-free pass, every processed
circuit's row agrees with simulating that circuit alone in fresh buffers
of exactly its own qubit count. -/
lemma runCircuits_match_isolated (ops : SimOps State Gate Pauli Err) (capOf : State → Nat)
    (L : SimLaws ops capOf) :
    ∀ (cs : List (CircuitData Gate Pauli)) (i : Nat) (st : LoopSt State),
      (∀ c ∈ cs, CapIndep ops c) →
      capOf st.sv = st.largest_nq →
      (runCircuits ops i cs st).2 = none →
      ∀ (k : Nat) (c : CircuitData Gate Pauli), cs.get? k = some c →
        ∀ j, j < c.pauli_sums.length →
          (runCircuits ops i cs st).1.out (i + k) j = (simulateAlone ops c).1 0 j ∧
            (simulateAlone ops c).2 = none := by
  intro cs
  induction cs with
  | nil => intro i st _ _ _ k c hk; simp at hk
  | cons c0 cs ih =>
      intro i st hind hsv hok k c hk j hj
      rw [runCircuits] at hok ⊢
      cases hstep : stepCircuit ops i c0 st with
      | mk st2 err =>
          rw [hstep] at hok
          cases err with
          | some e => simp at hok
          | none =>
              have hok2 : (runCircuits ops (i + 1) cs st2).2 = none := hok
              have hpair := stepCircuit_eq ops i c0 st
              rw [hstep] at hpair
              have hst2 : st2 = ⟨(grownSt ops c0 st).largest_nq, circuitState ops c0 st,
                  (grownSt ops c0 st).scratch,
                  (runObs ops i c0.fused_circuit (circuitState ops c0 st)
                    (grownSt ops c0 st).scratch c0.pauli_sums 0 (grownSt ops c0 st).out).1⟩ :=
                congrArg Prod.fst hpair
              have herr : rowErr ops c0.fused_circuit (circuitState ops c0 st)
                  (grownSt ops c0 st).scratch c0.pauli_sums = none := by
                have h2 := congrArg Prod.snd hpair
                rw [runObs_snd] at h2
                exact h2.symm
              have hfresh : circuitState ops c0 st =
                  freshState ops (grownSt ops c0 st).largest_nq c0.fused_circuit :=
                stepCircuit_state ops capOf L c0 st hsv
              have hnqle : c0.num_qubits ≤ (grownSt ops c0 st).largest_nq := by
                rw [grownSt_cap]
                exact Nat.le_max_right _ _
              cases k with
              | zero =>
                  have hc : some c0 = some c := hk
                  injection hc with hc
                  subst hc
                  have hci : CapIndep ops c0 := hind c0 (List.mem_cons_self _ _)
                  have hcongr := rowCells_congr ops c0.fused_circuit
                    (circuitState ops c0 st) (grownSt ops c0 st).scratch
                    (freshState ops c0.num_qubits c0.fused_circuit)
                    (ops.create c0.num_qubits) c0.pauli_sums
                    (fun p hp => by
                      rw [hfresh]
                      exact hci p hp _ hnqle _ _)
                  have hlen : (rowCells ops c0.fused_circuit (circuitState ops c0 st)
                      (grownSt ops c0 st).scratch c0.pauli_sums).length =
                      c0.pauli_sums.length :=
                    rowErr_none_length ops c0.fused_circuit _ _ c0.pauli_sums herr
                  constructor
                  · show (runCircuits ops (i + 1) cs st2).1.out (i + 0) j = _
                    rw [runCircuits_out_frame ops cs (i + 1) st2 (i + 0) j (by omega)]
                    rw [hst2]
                    show (runObs ops i c0.fused_circuit (circuitState ops c0 st)
                      (grownSt ops c0 st).scratch c0.pauli_sums 0
                      (grownSt ops c0 st).out).1 (i + 0) j = _
                    rw [runObs_fst, if_pos ⟨by omega, by omega, by omega⟩]
                    rw [simulateAlone, runObs_fst]
                    rw [if_pos ⟨rfl, by omega, by rw [← hcongr.1, hlen]; omega⟩]
                    rw [hcongr.1]
                  · rw [simulateAlone, runObs_snd, ← hcongr.2, herr]
              | succ k =>
                  have hk2 : cs.get? k = some c := hk
                  have hsv2 : capOf st2.sv = st2.largest_nq := by
                    rw [hst2]
                    show capOf (circuitState ops c0 st) = (grownSt ops c0 st).largest_nq
                    rw [circuitState, capOf_applyAll ops capOf L, L.cap_zero]
                    exact grownSt_capOf ops capOf L c0 st hsv
                  have hrec := ih (i + 1) st2
                    (fun c' hc' => hind c' (List.mem_cons_of_mem _ hc')) hsv2 hok2 k c hk2 j hj
                  have harith : i + 1 + k = i + (k + 1) := by omega
                  rw [harith] at hrec
                  exact hrec

/-! ### Characterization of the parallel construction phase -/

/-- Each item's slot depends only on that item's own build result and on
whether the item is scheduled; failures never clobber other slots. -/
lemma runConstruction_fst (build : Nat → Except Err Circ) :
    ∀ (order : List Nat) (acc : (Nat → Option Circ) × Option Err) (k : Nat),
      (runConstruction build order acc).1 k =
        match build k with
        | .ok c => if k ∈ order then some c else acc.1 k
        | .error _ => acc.1 k := by
  intro order
  induction order with
  | nil =>
      intro acc k
      cases build k with
      | ok c => simp [runConstruction]
      | error e => simp [runConstruction]
  | cons i rest ih =>
      intro acc k
      cases hbi : build i with
      | ok c =>
          have hred : runConstruction build (i :: rest) acc =
              runConstruction build rest
                (fun k2 => if k2 = i then some c else acc.1 k2, acc.2) := by
            rw [runConstruction, hbi]
          rw [hred, ih]
          cases hbk : build k with
          | ok c2 =>
              by_cases hk : k = i
              · subst hk
                have hcc : c = c2 := by
                  have := hbi.symm.trans hbk
                  injection this
                subst hcc
                simp [List.mem_cons]
              · simp only [List.mem_cons]
                by_cases hr : k ∈ rest <;> simp [hr, hk]
          | error e2 =>
              have hk : k ≠ i := by
                intro h
                subst h
                rw [hbi] at hbk
                injection hbk
              simp [hk]
      | error e =>
          have hred : runConstruction build (i :: rest) acc =
              runConstruction build rest (acc.1, statusMerge acc.2 e) := by
            rw [runConstruction, hbi]
          rw [hred, ih]
          cases hbk : build k with
          | ok c2 =>
              have hk : k ≠ i := by
                intro h
                subst h
                rw [hbi] at hbk
                injection hbk
              simp [List.mem_cons, hk]
          | error e2 => rfl

/-- The aggregated status: a pre-existing error is kept, otherwise the
first failure in schedule order is recorded. -/
lemma runConstruction_snd (build : Nat → Except Err Circ) :
    ∀ (order : List Nat) (acc : (Nat → Option Circ) × Option Err),
      (runConstruction build order acc).2 =
        match acc.2 with
        | some e => some e
        | none => firstFailure build order := by
  intro order
  induction order with
  | nil =>
      intro acc
      cases hacc : acc.2 with
      | some e => simp [runConstruction, hacc]
      | none => simp [runConstruction, firstFailure, hacc]
  | cons i rest ih =>
      intro acc
      cases hbi : build i with
      | ok c =>
          have hred : runConstruction build (i :: rest) acc =
              runConstruction build rest
                (fun k2 => if k2 = i then some c else acc.1 k2, acc.2) := by
            rw [runConstruction, hbi]
          have hff : firstFailure build (i :: rest) = firstFailure build rest := by
            rw [firstFailure, hbi]
          rw [hred, ih, hff]
      | error e =>
          have hred : runConstruction build (i :: rest) acc =
              runConstruction build rest (acc.1, statusMerge acc.2 e) := by
            rw [runConstruction, hbi]
          have hff : firstFailure build (i :: rest) = some e := by
            rw [firstFailure, hbi]
          rw [hred, ih, hff]
          cases hacc : acc.2 with
          | some e0 => simp [statusMerge, hacc]
          | none => simp [statusMerge, hacc]

lemma firstFailure_eq_none (build : Nat → Except Err Circ) :
    ∀ order : List Nat,
      firstFailure build order = none ↔ ∀ i ∈ order, ∀ e, build i ≠ .error e := by
  intro order
  induction order with
  | nil => simp [firstFailure]
  | cons i rest ih =>
      cases hbi : build i with
      | ok c =>
          rw [firstFailure, hbi]
          simp only [List.mem_cons]
          constructor
          · intro h k hk e
            rcases hk with hk | hk
            · subst hk; rw [hbi]; intro hcon; injection hcon
            · exact (ih.mp h) k hk e
          · intro h
            exact ih.mpr (fun k hk e => h k (Or.inr hk) e)
      | error e =>
          rw [firstFailure, hbi]
          simp only [List.mem_cons]
          constructor
          · intro h; injection h
          · intro h
            exact absurd hbi (h i (Or.inl rfl) e)

/-! ### Small helpers for the claim statements -/

lemma getD_map_const (ps : List Pauli) (j : Nat) (h : j < ps.length) :
    (ps.map (fun _ => (-2 : ℚ))).getD j 0 = -2 := by
  rw [List.getD_eq_getElem _ _ (by simpa using h)]
  simp

/-- The observable loop over an empty fused circuit consults neither the
expectation primitive nor the buffers. -/
lemma runObs_nil_indep (ops ops2 : SimOps State Gate Pauli Err) (i : Nat)
    (sv scr sv2 scr2 : State) :
    ∀ (ps : List Pauli) (j0 : Nat) (out : Mat),
      runObs ops i ([] : List Gate) sv scr ps j0 out =
        runObs ops2 i ([] : List Gate) sv2 scr2 ps j0 out := by
  intro ps
  induction ps with
  | nil => intro j0 out; rfl
  | cons p ps ih =>
      intro j0 out
      show runObs ops i [] sv scr ps (j0 + 1) (writeCell out i j0 (-2)) = _
      rw [ih]
      rfl

/-- Row cells over a prefix of terms on which the primitive succeeds. -/
lemma rowCells_prefix_ok (ops : SimOps State Gate Pauli Err) (fused : List Gate)
    (sv scr : State) (hfe : fused ≠ []) (ps1 : List Pauli) (vs : List ℚ)
    (h : List.Forall₂ (fun p v => ops.computeExpectation p sv scr = Except.ok v) ps1 vs) :
    ∀ rest, rowCells ops fused sv scr (ps1 ++ rest) = vs ++ rowCells ops fused sv scr rest ∧
      rowErr ops fused sv scr (ps1 ++ rest) = rowErr ops fused sv scr rest := by
  have hfe2 : fused.isEmpty = false := by
    cases fused with
    | nil => exact absurd rfl hfe
    | cons g gs => rfl
  induction h with
  | nil => intro rest; exact ⟨rfl, rfl⟩
  | cons hpv hrest ih =>
      intro rest
      constructor
      · rw [List.cons_append, rowCells]
        simp only [hfe2, Bool.false_eq_true, if_false, hpv, (ih rest).1, List.cons_append]
      · rw [List.cons_append, rowErr]
        simp only [hfe2, Bool.false_eq_true, if_false, hpv, (ih rest).2]

/-- A failing step aborts the whole pass at once: the result is the
failing step's state, independent of all circuits after it. -/
lemma computeLarge_abort (ops : SimOps State Gate Pauli Err)
    (pre post : List (CircuitData Gate Pauli)) (c : CircuitData Gate Pauli)
    (out0 : Mat) (e : Err)
    (hpre : (computeLarge ops pre out0).2 = none)
    (hstep : (stepCircuit ops pre.length c (computeLarge ops pre out0).1).2 = some e) :
    computeLarge ops (pre ++ c :: post) out0 =
      ((stepCircuit ops pre.length c (computeLarge ops pre out0).1).1, some e) := by
  have hpre2 : runCircuits ops 0 pre ⟨1, ops.create 1, ops.create 1, out0⟩ =
      ((computeLarge ops pre out0).1, none) := Prod.ext rfl hpre
  show runCircuits ops 0 (pre ++ c :: post) ⟨1, ops.create 1, ops.create 1, out0⟩ =
    ((stepCircuit ops pre.length c (computeLarge ops pre out0).1).1, some e)
  rw [runCircuits_append_ok ops pre (c :: post) 0 _ _ hpre2, Nat.zero_add, runCircuits]
  cases hs : stepCircuit ops pre.length c (computeLarge ops pre out0).1 with
  | mk st2 err =>
      have h2 : err = some e := by
        rw [hs] at hstep
        exact hstep
      subst h2
      rfl

/-! ### Branch reduction of the op pipeline -/

variable [Inhabited Prog] [Inhabited SymbolMap]

lemma tfqCompute_not4 (ops : SimOps State Gate Pauli Err) (numQ : Prog → Nat)
    (buildF : Prog → SymbolMap → Nat → Except Err (Circ × List Gate))
    (raw : RawInputs Prog SymbolMap Pauli) (order : List Nat) (out0 : Mat)
    (h : raw.num_inputs ≠ 4) :
    tfqCompute ops numQ buildF raw order out0 =
      ⟨some .invalidArgument, none, fun _ => none, false,
        ⟨1, ops.create 1, ops.create 1, out0⟩⟩ := by
  rw [tfqCompute, if_pos h]

lemma tfqCompute_rows_mismatch (ops : SimOps State Gate Pauli Err) (numQ : Prog → Nat)
    (buildF : Prog → SymbolMap → Nat → Except Err (Circ × List Gate))
    (raw : RawInputs Prog SymbolMap Pauli) (order : List Nat) (out0 : Mat)
    (h4 : raw.num_inputs = 4) (hc : raw.programs.length ≠ raw.pauli_sums.length) :
    tfqCompute ops numQ buildF raw order out0 =
      ⟨some .invalidArgument, some (raw.programs.length, raw.pauli_dim1),
        fun _ => none, false, ⟨1, ops.create 1, ops.create 1, out0⟩⟩ := by
  have hp : getProgramsAndNumQubits numQ raw =
      (.error () : Except Unit (List Prog × List Nat × List (List Pauli))) := by
    rw [getProgramsAndNumQubits, if_neg hc]
  rw [tfqCompute, if_neg (fun hn => hn h4), hp]

lemma tfqCompute_parsed (ops : SimOps State Gate Pauli Err) (numQ : Prog → Nat)
    (buildF : Prog → SymbolMap → Nat → Except Err (Circ × List Gate))
    (raw : RawInputs Prog SymbolMap Pauli) (order : List Nat) (out0 : Mat)
    (h4 : raw.num_inputs = 4) (hc : raw.programs.length = raw.pauli_sums.length) :
    tfqCompute ops numQ buildF raw order out0 =
      afterParse ops numQ buildF raw order out0 raw.programs
        (raw.programs.map numQ) raw.pauli_sums := by
  have hp : getProgramsAndNumQubits numQ raw =
      .ok (raw.programs, raw.programs.map numQ, raw.pauli_sums) := by
    rw [getProgramsAndNumQubits, if_pos hc]
  rw [tfqCompute, if_neg (fun hn => hn h4), hp]

lemma afterParse_maps_mismatch (ops : SimOps State Gate Pauli Err) (numQ : Prog → Nat)
    (buildF : Prog → SymbolMap → Nat → Except Err (Circ × List Gate))
    (raw : RawInputs Prog SymbolMap Pauli) (order : List Nat) (out0 : Mat)
    (programs : List Prog) (num_qubits : List Nat) (pauli_sums : List (List Pauli))
    (hm : programs.length ≠ raw.symbol_maps.length) :
    afterParse ops numQ buildF raw order out0 programs num_qubits pauli_sums =
      ⟨some .invalidArgument, some (raw.programs.length, raw.pauli_dim1),
        fun _ => none, false, ⟨1, ops.create 1, ops.create 1, out0⟩⟩ := by
  rw [afterParse, if_pos hm]

lemma afterParse_construct_err (ops : SimOps State Gate Pauli Err) (numQ : Prog → Nat)
    (buildF : Prog → SymbolMap → Nat → Except Err (Circ × List Gate))
    (raw : RawInputs Prog SymbolMap Pauli) (order : List Nat) (out0 : Mat)
    (programs : List Prog) (num_qubits : List Nat) (pauli_sums : List (List Pauli))
    (hm : programs.length = raw.symbol_maps.length)
    (slots : Nat → Option (Circ × List Gate)) (e : Err)
    (hfail : constructAll (buildIdx buildF numQ raw) order = (slots, some e)) :
    afterParse ops numQ buildF raw order out0 programs num_qubits pauli_sums =
      ⟨some (.nested e), some (raw.programs.length, raw.pauli_dim1),
        slots, false, ⟨1, ops.create 1, ops.create 1, out0⟩⟩ := by
  rw [afterParse, if_neg (fun hn => hn hm), hfail]

lemma afterParse_construct_ok (ops : SimOps State Gate Pauli Err) (numQ : Prog → Nat)
    (buildF : Prog → SymbolMap → Nat → Except Err (Circ × List Gate))
    (raw : RawInputs Prog SymbolMap Pauli) (order : List Nat) (out0 : Mat)
    (programs : List Prog) (num_qubits : List Nat) (pauli_sums : List (List Pauli))
    (hm : programs.length = raw.symbol_maps.length)
    (slots : Nat → Option (Circ × List Gate))
    (hbuilt : constructAll (buildIdx buildF numQ raw) order = (slots, none)) :
    afterParse ops numQ buildF raw order out0 programs num_qubits pauli_sums =
      ⟨(runCircuits ops 0 (simCircuits programs num_qubits pauli_sums slots)
          ⟨1, ops.create 1, ops.create 1, out0⟩).2.map .nested,
        some (raw.programs.length, raw.pauli_dim1), slots, true,
        (runCircuits ops 0 (simCircuits programs num_qubits pauli_sums slots)
          ⟨1, ops.create 1, ops.create 1, out0⟩).1⟩ := by
  rw [afterParse, if_neg (fun hn => hn hm), hbuilt]

/-! ### Claim theorems -/

/-- C1: for every batch with valid inputs (error-free pass, collaborator
laws, and the capacity-independence contract of the expectation
primitive), the expectation values written to row `i` of the output
matrix equal those obtained by simulating circuit `i` alone in freshly
allocated state and scratch buffers of exactly its own qubit count, even
when qubit counts across the batch are non-monotonic and the shared
buffers have grown larger than circuit `i` needs — buffer reuse and
growth never leak state between circuits. -/
theorem c1_growth_never_leaks (ops : SimOps State Gate Pauli Err) (capOf : State → Nat)
    (L : SimLaws ops capOf) (circuits : List (CircuitData Gate Pauli)) (out0 : Mat)
    (hind : ∀ c ∈ circuits, CapIndep ops c)
    (hok : (computeLarge ops circuits out0).2 = none)
    (i : Nat) (c : CircuitData Gate Pauli) (hc : circuits.get? i = some c)
    (j : Nat) (hj : j < c.pauli_sums.length) :
    (computeLarge ops circuits out0).1.out i j = (simulateAlone ops c).1 0 j ∧
      (simulateAlone ops c).2 = none := by
  have h := runCircuits_match_isolated ops capOf L circuits 0
    ⟨1, ops.create 1, ops.create 1, out0⟩ hind (L.cap_create 1) hok i c hc j hj
  rw [Nat.zero_add] at h
  exact h

/-- Witness for C1 at a batch with non-monotonic qubit counts 2, 5, 3:
row 2 (capacity is 5 there, circuit needs 3) agrees with the isolated
3-qubit simulation. -/
theorem c1_growth_never_leaks_witness :
    (computeLarge cOps [⟨2, [4], [1]⟩, ⟨5, [6], [2]⟩, ⟨3, [8], [9]⟩]
        (fun _ _ => 0)).1.out 2 0 =
      (simulateAlone cOps ⟨3, [8], [9]⟩).1 0 0 ∧
      (simulateAlone cOps ⟨3, [8], [9]⟩).2 = none :=
  c1_growth_never_leaks cOps cCap cOps_laws
    [⟨2, [4], [1]⟩, ⟨5, [6], [2]⟩, ⟨3, [8], [9]⟩] (fun _ _ => 0)
    (fun c _ => cOps_capIndep c) rfl 2 ⟨3, [8], [9]⟩ rfl 0 (by decide)

/-- C6: the shared context's capacity starts at 1 (the empty pass returns
the initial one-qubit context unchanged); in every step the capacity
becomes the max of the old capacity and the circuit's qubit count, both
buffers are reallocated at the circuit's qubit count iff that count
exceeds the current capacity and are kept otherwise (the scratch buffer
is carried over as is, the state buffer is then zeroed and run); and the
capacity is never reduced by the rest of the pass. -/
theorem c6_capacity_monotone (ops : SimOps State Gate Pauli Err) :
    (∀ out0 : Mat,
      computeLarge ops ([] : List (CircuitData Gate Pauli)) out0 =
        (⟨1, ops.create 1, ops.create 1, out0⟩, none)) ∧
    (∀ (i : Nat) (c : CircuitData Gate Pauli) (st : LoopSt State),
      (stepCircuit ops i c st).1.largest_nq = max st.largest_nq c.num_qubits ∧
      (c.num_qubits > st.largest_nq →
        grownSt ops c st =
          ⟨c.num_qubits, ops.create c.num_qubits, ops.create c.num_qubits, st.out⟩) ∧
      (¬ c.num_qubits > st.largest_nq → grownSt ops c st = st) ∧
      (stepCircuit ops i c st).1.scratch = (grownSt ops c st).scratch ∧
      (stepCircuit ops i c st).1.sv =
        applyAll ops c.fused_circuit (ops.setStateZero (grownSt ops c st).sv)) ∧
    (∀ (cs : List (CircuitData Gate Pauli)) (i : Nat) (st : LoopSt State),
      st.largest_nq ≤ (runCircuits ops i cs st).1.largest_nq) := by
  refine ⟨fun out0 => rfl,
    fun i c st => ⟨stepCircuit_cap ops i c st, ?_, ?_, rfl, rfl⟩,
    runCircuits_cap_mono ops⟩
  · intro h
    rw [grownSt, if_pos h]
  · intro h
    rw [grownSt, if_neg h]

/-- Witness for C6: growing step at capacity 1 for a 3-qubit circuit. -/
theorem c6_capacity_monotone_witness :
    (stepCircuit cOps 0 ⟨3, [4], [1]⟩
        ⟨1, cOps.create 1, cOps.create 1, fun _ _ => 0⟩).1.largest_nq = max 1 3 ∧
    grownSt cOps ⟨3, [4], [1]⟩ ⟨1, cOps.create 1, cOps.create 1, fun _ _ => 0⟩ =
      ⟨3, cOps.create 3, cOps.create 3, fun _ _ => 0⟩ :=
  ⟨((c6_capacity_monotone cOps).2.1 0 ⟨3, [4], [1]⟩
      ⟨1, cOps.create 1, cOps.create 1, fun _ _ => 0⟩).1,
    (((c6_capacity_monotone cOps).2.1 0 ⟨3, [4], [1]⟩
      ⟨1, cOps.create 1, cOps.create 1, fun _ _ => 0⟩).2.1) (by decide)⟩

/-- C9: a circuit with an empty fused gate sequence drives the adaptive
manager exactly like a non-empty one: if its declared qubit count exceeds
the current capacity both buffers are reallocated to it, the state buffer
is reset to the all-zero basis state (its final state is exactly the
zeroed grown buffer), its step never fails, and on an error-free pass the
final capacity is the fold of `max` from 1 over all declared qubit
counts, empty circuits included. -/
theorem c9_empty_circuit_drives_manager (ops : SimOps State Gate Pauli Err) :
    (∀ (i : Nat) (c : CircuitData Gate Pauli) (st : LoopSt State),
      c.fused_circuit = [] →
      (stepCircuit ops i c st).1.largest_nq = max st.largest_nq c.num_qubits ∧
      (stepCircuit ops i c st).1.sv = ops.setStateZero (grownSt ops c st).sv ∧
      (c.num_qubits > st.largest_nq →
        (grownSt ops c st).sv = ops.create c.num_qubits ∧
          (grownSt ops c st).scratch = ops.create c.num_qubits) ∧
      (stepCircuit ops i c st).2 = none) ∧
    (∀ (circuits : List (CircuitData Gate Pauli)) (out0 : Mat),
      (computeLarge ops circuits out0).2 = none →
      (computeLarge ops circuits out0).1.largest_nq =
        circuits.foldl (fun a c => max a c.num_qubits) 1) := by
  constructor
  · intro i c st hc
    refine ⟨stepCircuit_cap ops i c st, ?_, ?_, ?_⟩
    · show applyAll ops c.fused_circuit (ops.setStateZero (grownSt ops c st).sv) = _
      rw [hc]
      rfl
    · intro h
      rw [grownSt, if_pos h]
      exact ⟨rfl, rfl⟩
    · have hsnd : (stepCircuit ops i c st).2 =
          rowErr ops c.fused_circuit (circuitState ops c st)
            (grownSt ops c st).scratch c.pauli_sums := by
        rw [stepCircuit_eq]
        exact runObs_snd ops i c.fused_circuit _ _ c.pauli_sums 0 _
      rw [hsnd, hc]
      exact (rowCells_empty ops _ _ c.pauli_sums).2
  · intro circuits out0 hok
    exact runCircuits_cap_of_none ops circuits 0 _ hok

/-- Witness for C9: a 2-qubit empty circuit grows the context and the
batch's final capacity is `max (max 1 2) 4` even though circuit 0 has no
gates. -/
theorem c9_empty_circuit_drives_manager_witness :
    (stepCircuit cOps 0 ⟨2, [], [5]⟩
        ⟨1, cOps.create 1, cOps.create 1, fun _ _ => 0⟩).2 = none ∧
    (computeLarge cOps [⟨2, [], [5]⟩, ⟨4, [1], [2]⟩] (fun _ _ => 0)).1.largest_nq =
      [(⟨2, [], [5]⟩ : CircuitData Nat Nat), ⟨4, [1], [2]⟩].foldl
        (fun a c => max a c.num_qubits) 1 :=
  ⟨((c9_empty_circuit_drives_manager cOps).1 0 ⟨2, [], [5]⟩
      ⟨1, cOps.create 1, cOps.create 1, fun _ _ => 0⟩ rfl).2.2.2,
    (c9_empty_circuit_drives_manager cOps).2
      [⟨2, [], [5]⟩, ⟨4, [1], [2]⟩] (fun _ _ => 0) rfl⟩

/-- C2: for a circuit whose fused gate sequence is empty, every cell of
its output row is set to exactly `-2.0` regardless of the contents of its
observable list, and the expectation primitive is never invoked for that
circuit: its whole step is unchanged under an arbitrary replacement of
the expectation primitive. -/
theorem c2_empty_circuit_sentinel (ops : SimOps State Gate Pauli Err)
    (pre post : List (CircuitData Gate Pauli)) (c : CircuitData Gate Pauli)
    (hc : c.fused_circuit = []) (out0 : Mat)
    (hpre : (computeLarge ops pre out0).2 = none) :
    (∀ j, j < c.pauli_sums.length →
      (computeLarge ops (pre ++ c :: post) out0).1.out pre.length j = -2) ∧
    (∀ (f : Pauli → State → State → Except Err ℚ) (i : Nat) (st : LoopSt State),
      stepCircuit { ops with computeExpectation := f } i c st = stepCircuit ops i c st) := by
  constructor
  · intro j hj
    have hpre2 : runCircuits ops 0 pre ⟨1, ops.create 1, ops.create 1, out0⟩ =
        ((computeLarge ops pre out0).1, none) := Prod.ext rfl hpre
    show (runCircuits ops 0 (pre ++ c :: post)
        ⟨1, ops.create 1, ops.create 1, out0⟩).1.out pre.length j = -2
    rw [runCircuits_append_ok ops pre (c :: post) 0 _ _ hpre2, Nat.zero_add, runCircuits]
    cases hstep : stepCircuit ops pre.length c (computeLarge ops pre out0).1 with
    | mk st2 err =>
        have hpair := stepCircuit_eq ops pre.length c (computeLarge ops pre out0).1
        rw [hstep] at hpair
        have hcells := rowCells_empty ops
          (circuitState ops c (computeLarge ops pre out0).1)
          (grownSt ops c (computeLarge ops pre out0).1).scratch c.pauli_sums
        have herr : err = none := by
          have h2 := congrArg Prod.snd hpair
          rw [runObs_snd, hc] at h2
          have h3 : err = rowErr ops []
              (circuitState ops c (computeLarge ops pre out0).1)
              (grownSt ops c (computeLarge ops pre out0).1).scratch c.pauli_sums := h2
          rw [h3]
          exact hcells.2
        subst herr
        show (runCircuits ops (pre.length + 1) post st2).1.out pre.length j = -2
        rw [runCircuits_out_frame ops post (pre.length + 1) st2 pre.length j (by omega)]
        have hout : st2.out = (runObs ops pre.length c.fused_circuit
            (circuitState ops c (computeLarge ops pre out0).1)
            (grownSt ops c (computeLarge ops pre out0).1).scratch c.pauli_sums 0
            (grownSt ops c (computeLarge ops pre out0).1).out).1 :=
          congrArg LoopSt.out (congrArg Prod.fst hpair)
        rw [hout, runObs_fst, hc, hcells.1]
        rw [if_pos ⟨rfl, by omega, by rw [List.length_map]; omega⟩, Nat.sub_zero]
        exact getD_map_const c.pauli_sums j hj
  · intro f i st
    have h1 : grownSt { ops with computeExpectation := f } c st = grownSt ops c st := rfl
    have h2 : circuitState { ops with computeExpectation := f } c st =
        circuitState ops c st := rfl
    rw [stepCircuit_eq, stepCircuit_eq, h1, h2, hc]
    rw [runObs_nil_indep { ops with computeExpectation := f } ops i
      (circuitState ops c st) (grownSt ops c st).scratch
      (circuitState ops c st) (grownSt ops c st).scratch c.pauli_sums 0
      (grownSt ops c st).out]

/-- Witness for C2: a one-qubit gateless circuit with two observables has
output row `[-2, -2]` and an expectation-primitive-independent step. -/
theorem c2_empty_circuit_sentinel_witness :
    (∀ j, j < (⟨1, [], [4, 5]⟩ : CircuitData Nat Nat).pauli_sums.length →
      (computeLarge cOps ([] ++ (⟨1, [], [4, 5]⟩ : CircuitData Nat Nat) :: [])
        (fun _ _ => 0)).1.out (List.length ([] : List (CircuitData Nat Nat))) j = -2) ∧
    (∀ (f : Nat → Nat × List Nat → Nat × List Nat → Except Unit ℚ)
        (i : Nat) (st : LoopSt (Nat × List Nat)),
      stepCircuit { cOps with computeExpectation := f } i ⟨1, [], [4, 5]⟩ st =
        stepCircuit cOps i ⟨1, [], [4, 5]⟩ st) :=
  c2_empty_circuit_sentinel cOps [] [] ⟨1, [], [4, 5]⟩ rfl (fun _ _ => 0) rfl

/-- C7: if the expectation primitive reports an error for a term of
circuit `i`, the whole invocation fails with that error at the abort
point: the pass's result is exactly the failing step's state — cells
written before the failure keep their values — and it is independent of
all subsequent circuits, which are never simulated. -/
theorem c7_expectation_error_fails_all (ops : SimOps State Gate Pauli Err)
    (pre post : List (CircuitData Gate Pauli)) (c : CircuitData Gate Pauli)
    (out0 : Mat) (e : Err)
    (hpre : (computeLarge ops pre out0).2 = none)
    (hstep : (stepCircuit ops pre.length c (computeLarge ops pre out0).1).2 = some e) :
    computeLarge ops (pre ++ c :: post) out0 =
      ((stepCircuit ops pre.length c (computeLarge ops pre out0).1).1, some e) :=
  computeLarge_abort ops pre post c out0 e hpre hstep

/-- Witness for C7: observable `7` fails under `eOps`; the batch's result
is the abort state of circuit 0 and the trailing circuit is ignored. -/
theorem c7_expectation_error_fails_all_witness :
    computeLarge eOps ([] ++ (⟨1, [2], [7]⟩ : CircuitData Nat Nat) :: [⟨1, [2], [3]⟩])
        (fun _ _ => 0) =
      ((stepCircuit eOps 0 ⟨1, [2], [7]⟩
          (computeLarge eOps [] (fun _ _ => 0)).1).1, some ()) :=
  c7_expectation_error_fails_all eOps [] [⟨1, [2], [3]⟩] ⟨1, [2], [7]⟩
    (fun _ _ => 0) () rfl rfl

/-- C10: when the expectation primitive errors at circuit `i` (index
`pre.length`), observable `j` (index `ps1.length`, after the `vs` values
of the succeeding prefix `ps1`), the invocation fails with that error,
the cells written for the succeeding prefix hold their computed values,
the failing cell itself is not written, every later cell of the row and
every later row keeps its pre-existing allocated contents `out0`, and
every earlier row keeps the values the pass wrote for it. -/
theorem c10_abort_frame (ops : SimOps State Gate Pauli Err)
    (pre post : List (CircuitData Gate Pauli)) (c : CircuitData Gate Pauli)
    (out0 : Mat) (ps1 : List Pauli) (pbad : Pauli) (ps2 : List Pauli)
    (vs : List ℚ) (e : Err)
    (hps : c.pauli_sums = ps1 ++ pbad :: ps2)
    (hne : c.fused_circuit ≠ [])
    (hpre : (computeLarge ops pre out0).2 = none)
    (hok : List.Forall₂ (fun p v =>
      ops.computeExpectation p (circuitState ops c (computeLarge ops pre out0).1)
        (grownSt ops c (computeLarge ops pre out0).1).scratch = Except.ok v) ps1 vs)
    (hbad : ops.computeExpectation pbad
        (circuitState ops c (computeLarge ops pre out0).1)
        (grownSt ops c (computeLarge ops pre out0).1).scratch = Except.error e) :
    (computeLarge ops (pre ++ c :: post) out0).2 = some e ∧
    (∀ k, k < vs.length →
      (computeLarge ops (pre ++ c :: post) out0).1.out pre.length k = vs.getD k 0) ∧
    (∀ q, ps1.length ≤ q →
      (computeLarge ops (pre ++ c :: post) out0).1.out pre.length q =
        out0 pre.length q) ∧
    (∀ r q, pre.length < r →
      (computeLarge ops (pre ++ c :: post) out0).1.out r q = out0 r q) ∧
    (∀ r q, r < pre.length →
      (computeLarge ops (pre ++ c :: post) out0).1.out r q =
        (computeLarge ops pre out0).1.out r q) := by
  have hfe2 : c.fused_circuit.isEmpty = false := by
    cases hcf : c.fused_circuit with
    | nil => exact absurd hcf hne
    | cons g gs => rfl
  have hcb : rowCells ops c.fused_circuit
      (circuitState ops c (computeLarge ops pre out0).1)
      (grownSt ops c (computeLarge ops pre out0).1).scratch (pbad :: ps2) = [] := by
    rw [rowCells]
    simp [hfe2, hbad]
  have heb : rowErr ops c.fused_circuit
      (circuitState ops c (computeLarge ops pre out0).1)
      (grownSt ops c (computeLarge ops pre out0).1).scratch (pbad :: ps2) = some e := by
    rw [rowErr]
    simp [hfe2, hbad]
  have hpref := rowCells_prefix_ok ops c.fused_circuit
    (circuitState ops c (computeLarge ops pre out0).1)
    (grownSt ops c (computeLarge ops pre out0).1).scratch hne ps1 vs hok (pbad :: ps2)
  have hcells : rowCells ops c.fused_circuit
      (circuitState ops c (computeLarge ops pre out0).1)
      (grownSt ops c (computeLarge ops pre out0).1).scratch c.pauli_sums = vs := by
    rw [hps, hpref.1, hcb, List.append_nil]
  have herr : rowErr ops c.fused_circuit
      (circuitState ops c (computeLarge ops pre out0).1)
      (grownSt ops c (computeLarge ops pre out0).1).scratch c.pauli_sums = some e := by
    rw [hps, hpref.2, heb]
  have hstep : (stepCircuit ops pre.length c (computeLarge ops pre out0).1).2 = some e := by
    show (runObs ops pre.length c.fused_circuit
      (circuitState ops c (computeLarge ops pre out0).1)
      (grownSt ops c (computeLarge ops pre out0).1).scratch c.pauli_sums 0
      (grownSt ops c (computeLarge ops pre out0).1).out).2 = some e
    rw [runObs_snd]
    exact herr
  have habort := computeLarge_abort ops pre post c out0 e hpre hstep
  have hfo : ∀ r q, (computeLarge ops (pre ++ c :: post) out0).1.out r q =
      (runObs ops pre.length c.fused_circuit
        (circuitState ops c (computeLarge ops pre out0).1)
        (grownSt ops c (computeLarge ops pre out0).1).scratch c.pauli_sums 0
        (grownSt ops c (computeLarge ops pre out0).1).out).1 r q := by
    intro r q
    rw [habort]
    rfl
  have hpreout : ∀ r q, pre.length ≤ r →
      (computeLarge ops pre out0).1.out r q = out0 r q := by
    intro r q hr
    show (runCircuits ops 0 pre ⟨1, ops.create 1, ops.create 1, out0⟩).1.out r q =
      out0 r q
    exact runCircuits_out_frame ops pre 0 _ r q (Or.inr (by omega))
  have hlen : ps1.length = vs.length := List.Forall₂.length_eq hok
  refine ⟨?_, ?_, ?_, ?_, ?_⟩
  · rw [habort]
  · intro k hk
    rw [hfo, runObs_fst, hcells, if_pos ⟨rfl, by omega, by omega⟩, Nat.sub_zero]
  · intro q hq
    rw [hfo, runObs_fst, hcells, if_neg (fun hcond => by omega), grownSt_out]
    exact hpreout pre.length q (Nat.le_refl _)
  · intro r q hr
    rw [hfo, runObs_fst, if_neg (fun hcond => by omega), grownSt_out]
    exact hpreout r q (by omega)
  · intro r q hr
    rw [hfo, runObs_fst, if_neg (fun hcond => by omega), grownSt_out]

/-- Witness for C10: under `eOps`, circuit `⟨1, [0], [1, 7, 3]⟩` fails at
its second observable; the invocation's status is that error. -/
theorem c10_abort_frame_witness :
    (computeLarge eOps ([] ++ (⟨1, [0], [1, 7, 3]⟩ : CircuitData Nat Nat) ::
        [⟨1, [0], [4]⟩]) (fun _ _ => 0)).2 = some () ∧
    (computeLarge eOps ([] ++ (⟨1, [0], [1, 7, 3]⟩ : CircuitData Nat Nat) ::
        [⟨1, [0], [4]⟩]) (fun _ _ => 0)).1.out 0 2 = 0 :=
  by
    have h := c10_abort_frame eOps [] [⟨1, [0], [4]⟩] ⟨1, [0], [1, 7, 3]⟩
      (fun _ _ => 0) [1] 7 [3] [((1 : Nat) : ℚ)] () rfl (by decide) rfl
      (List.Forall₂.cons rfl List.Forall₂.nil) rfl
    exact ⟨h.1, h.2.2.1 2 (by decide)⟩

/-- C3: if any circuit fails to build, the whole invocation fails and no
circuit is simulated. All construction items still run to completion — a
success scheduled anywhere in the order is recorded in its own slot — a
pre-existing recorded error is never overwritten by a later one
(first-failure-wins under the mutex-serialized status updates), and the
aggregated status is checked after the full barrier and before the
simulation phase: on failure the trace keeps the built slots, `simRan`
is false, and the output tensor is untouched. -/
theorem c3_construction_barrier {B2 : Type} (build : Nat → Except Err B2)
    (order : List Nat) :
    (∀ i b, i ∈ order → build i = .ok b → (constructAll build order).1 i = some b) ∧
    (∀ (acc : (Nat → Option B2) × Option Err) (e : Err), acc.2 = some e →
      (runConstruction build order acc).2 = some e) ∧
    ((constructAll build order).2 = firstFailure build order) ∧
    (∀ (State2 Gate2 Pauli2 Prog2 SymbolMap2 Circ2 : Type)
        [Inhabited Prog2] [Inhabited SymbolMap2]
        (ops : SimOps State2 Gate2 Pauli2 Err) (numQ : Prog2 → Nat)
        (buildF : Prog2 → SymbolMap2 → Nat → Except Err (Circ2 × List Gate2))
        (raw : RawInputs Prog2 SymbolMap2 Pauli2) (out0 : Mat)
        (slots : Nat → Option (Circ2 × List Gate2)) (e : Err),
      raw.num_inputs = 4 →
      raw.programs.length = raw.pauli_sums.length →
      raw.programs.length = raw.symbol_maps.length →
      constructAll (buildIdx buildF numQ raw) order = (slots, some e) →
      (tfqCompute ops numQ buildF raw order out0).status = some (.nested e) ∧
        (tfqCompute ops numQ buildF raw order out0).simRan = false ∧
        (tfqCompute ops numQ buildF raw order out0).built = slots ∧
        (tfqCompute ops numQ buildF raw order out0).final.out = out0) := by
  refine ⟨?_, ?_, ?_, ?_⟩
  · intro i b hi hb
    show (runConstruction build order (fun _ => none, none)).1 i = some b
    rw [runConstruction_fst, hb]
    simp [hi]
  · intro acc e hacc
    rw [runConstruction_snd, hacc]
  · show (runConstruction build order (fun _ => none, none)).2 = firstFailure build order
    rw [runConstruction_snd]
  · intro State2 Gate2 Pauli2 Prog2 SymbolMap2 Circ2 _ _ ops numQ buildF raw out0
      slots e h4 hc hm hfail
    rw [tfqCompute_parsed ops numQ buildF raw order out0 h4 hc,
      afterParse_construct_err ops numQ buildF raw order out0 raw.programs
        (raw.programs.map numQ) raw.pauli_sums hm slots e hfail]
    exact ⟨rfl, rfl, rfl, rfl⟩

/-- Witness for C3: item 1 fails to build, yet item 2 is still built; with
an always-failing builder the op fails with the nested error and never
simulates. -/
theorem c3_construction_barrier_witness :
    (constructAll (fun i => if i = 1 then Except.error () else Except.ok i) [0, 1, 2]).1 2 =
      some 2 ∧
    (tfqCompute cOps (fun _ : Nat => 1)
        (fun _ _ _ => (Except.error () : Except Unit (Nat × List Nat)))
        ⟨4, [5], [6], [[7]], 1⟩ [0] (fun _ _ => 0)).status = some (.nested ()) ∧
    (tfqCompute cOps (fun _ : Nat => 1)
        (fun _ _ _ => (Except.error () : Except Unit (Nat × List Nat)))
        ⟨4, [5], [6], [[7]], 1⟩ [0] (fun _ _ => 0)).simRan = false := by
  have h1 := (c3_construction_barrier
    (fun i => if i = 1 then Except.error () else Except.ok i) [0, 1, 2]).1 2 2
    (by decide) rfl
  have h2 := (c3_construction_barrier
    (buildIdx (fun _ _ _ => (Except.error () : Except Unit (Nat × List Nat)))
      (fun _ : Nat => 1) ⟨4, [5], [6], [[7]], 1⟩) [0]).2.2.2
    (Nat × List Nat) Nat Nat Nat Nat Nat cOps (fun _ : Nat => 1)
    (fun _ _ _ => (Except.error () : Except Unit (Nat × List Nat)))
    ⟨4, [5], [6], [[7]], 1⟩ (fun _ _ => 0)
    (constructAll (buildIdx (fun _ _ _ => (Except.error () : Except Unit (Nat × List Nat)))
      (fun _ : Nat => 1) ⟨4, [5], [6], [[7]], 1⟩) [0]).1 ()
    rfl rfl rfl (Prod.ext rfl rfl)
  exact ⟨h1, h2.1, h2.2.1⟩

/-- C4: the op registers a shape function that, for rank-valid inputs,
infers the output shape `Matrix(programs_shape[0], pauli_sums_shape[1])`;
and whenever the kernel reaches output allocation (the input count check
passed), the allocated output shape is exactly `B × M` with `B` the
number of program descriptions (dimension 0 of input 0) and `M`
dimension 1 of the `pauli_sums` input. -/
theorem c4_output_shape :
    (∀ r0 r1 r2 r3 : List Nat, r0.length = 1 → r1.length = 1 → r2.length = 2 →
      r3.length = 2 →
      setShapeFn r0 r1 r2 r3 = .ok (r0.getD 0 0, r3.getD 1 0)) ∧
    (∀ (State2 Gate2 Pauli2 Prog2 SymbolMap2 Circ2 Err2 : Type)
        [Inhabited Prog2] [Inhabited SymbolMap2]
        (ops : SimOps State2 Gate2 Pauli2 Err2) (numQ : Prog2 → Nat)
        (buildF : Prog2 → SymbolMap2 → Nat → Except Err2 (Circ2 × List Gate2))
        (raw : RawInputs Prog2 SymbolMap2 Pauli2) (order : List Nat) (out0 : Mat),
      raw.num_inputs = 4 →
      (tfqCompute ops numQ buildF raw order out0).outShape =
        some (raw.programs.length, raw.pauli_dim1)) := by
  constructor
  · intro r0 r1 r2 r3 h0 h1 h2 h3
    rw [setShapeFn, if_pos h0, if_pos h1, if_pos h2, if_pos h3]
  · intro State2 Gate2 Pauli2 Prog2 SymbolMap2 Circ2 Err2 _ _ ops numQ buildF raw
      order out0 h4
    by_cases hc : raw.programs.length = raw.pauli_sums.length
    · rw [tfqCompute_parsed ops numQ buildF raw order out0 h4 hc]
      by_cases hm : raw.programs.length = raw.symbol_maps.length
      · cases hca : constructAll (buildIdx buildF numQ raw) order with
        | mk slots st =>
            cases st with
            | some e =>
                rw [afterParse_construct_err ops numQ buildF raw order out0
                  raw.programs (raw.programs.map numQ) raw.pauli_sums hm slots e hca]
            | none =>
                rw [afterParse_construct_ok ops numQ buildF raw order out0
                  raw.programs (raw.programs.map numQ) raw.pauli_sums hm slots hca]
      · rw [afterParse_maps_mismatch ops numQ buildF raw order out0
          raw.programs (raw.programs.map numQ) raw.pauli_sums hm]
    · rw [tfqCompute_rows_mismatch ops numQ buildF raw order out0 h4 hc]

/-- Witness for C4: a rank-valid shape inference and a one-circuit batch
allocated as a `1 × 1` matrix. -/
theorem c4_output_shape_witness :
    setShapeFn [3] [2] [2, 4] [3, 5] = .ok (3, 5) ∧
    (tfqCompute cOps (fun _ : Nat => 1)
        (fun p _ n => (Except.ok (p, [n]) : Except Unit (Nat × List Nat)))
        ⟨4, [5], [6], [[7]], 1⟩ [0] (fun _ _ => 0)).outShape = some (1, 1) :=
  ⟨c4_output_shape.1 [3] [2] [2, 4] [3, 5] rfl rfl rfl rfl,
    c4_output_shape.2 (Nat × List Nat) Nat Nat Nat Nat Nat Unit cOps (fun _ : Nat => 1)
      (fun p _ n => (Except.ok (p, [n]) : Except Unit (Nat × List Nat)))
      ⟨4, [5], [6], [[7]], 1⟩ [0] (fun _ _ => 0) rfl⟩

/-- C5: for a fixed batch, the built slots, their contents, and the final
expectation values are identical across any two serializations of the
construction phase that each schedule the items `0, …, B-1` exactly once
(covering every chunk partitioning, chunk sizes 1 and `B` included, and
every thread schedule), and the two runs succeed or fail together —
because every item's build output depends only on its own inputs and goes
to its own disjoint slot. -/
theorem c5_schedule_independent (ops : SimOps State Gate Pauli Err)
    (numQ : Prog → Nat)
    (buildF : Prog → SymbolMap → Nat → Except Err (Circ × List Gate))
    (raw : RawInputs Prog SymbolMap Pauli) (out0 : Mat) (o1 o2 : List Nat)
    (h1 : o1.Perm (List.range raw.programs.length))
    (h2 : o2.Perm (List.range raw.programs.length)) :
    (tfqCompute ops numQ buildF raw o1 out0).built =
      (tfqCompute ops numQ buildF raw o2 out0).built ∧
    (tfqCompute ops numQ buildF raw o1 out0).final.out =
      (tfqCompute ops numQ buildF raw o2 out0).final.out ∧
    ((tfqCompute ops numQ buildF raw o1 out0).status = none ↔
      (tfqCompute ops numQ buildF raw o2 out0).status = none) := by
  have hmem : ∀ k, k ∈ o1 ↔ k ∈ o2 := fun k =>
    (h1.mem_iff).trans (h2.mem_iff).symm
  have hslots : (constructAll (buildIdx buildF numQ raw) o1).1 =
      (constructAll (buildIdx buildF numQ raw) o2).1 := by
    funext k
    show (runConstruction (buildIdx buildF numQ raw) o1 (fun _ => none, none)).1 k =
      (runConstruction (buildIdx buildF numQ raw) o2 (fun _ => none, none)).1 k
    rw [runConstruction_fst, runConstruction_fst]
    cases buildIdx buildF numQ raw k with
    | ok c => simp only [hmem k]
    | error e => rfl
  have hstat : ((constructAll (buildIdx buildF numQ raw) o1).2 = none ↔
      (constructAll (buildIdx buildF numQ raw) o2).2 = none) := by
    show ((runConstruction (buildIdx buildF numQ raw) o1 (fun _ => none, none)).2 = none ↔
      (runConstruction (buildIdx buildF numQ raw) o2 (fun _ => none, none)).2 = none)
    rw [runConstruction_snd, runConstruction_snd]
    show (firstFailure (buildIdx buildF numQ raw) o1 = none ↔
      firstFailure (buildIdx buildF numQ raw) o2 = none)
    rw [firstFailure_eq_none, firstFailure_eq_none]
    constructor
    · intro h i hi e
      exact h i ((hmem i).mpr hi) e
    · intro h i hi e
      exact h i ((hmem i).mp hi) e
  by_cases h4 : raw.num_inputs ≠ 4
  · rw [tfqCompute_not4 ops numQ buildF raw o1 out0 h4,
      tfqCompute_not4 ops numQ buildF raw o2 out0 h4]
    exact ⟨rfl, rfl, Iff.rfl⟩
  · have h4e : raw.num_inputs = 4 := not_not.mp h4
    by_cases hc : raw.programs.length = raw.pauli_sums.length
    · rw [tfqCompute_parsed ops numQ buildF raw o1 out0 h4e hc,
        tfqCompute_parsed ops numQ buildF raw o2 out0 h4e hc]
      by_cases hm : raw.programs.length = raw.symbol_maps.length
      · cases hca1 : constructAll (buildIdx buildF numQ raw) o1 with
        | mk slots1 st1 =>
            cases hca2 : constructAll (buildIdx buildF numQ raw) o2 with
            | mk slots2 st2 =>
                have hs12 : slots1 = slots2 := by
                  have e1 : slots1 = (constructAll (buildIdx buildF numQ raw) o1).1 := by
                    rw [hca1]
                  have e2 : slots2 = (constructAll (buildIdx buildF numQ raw) o2).1 := by
                    rw [hca2]
                  rw [e1, e2, hslots]
                cases st1 with
                | some e1 =>
                    have hst2 : ∃ e2b, st2 = some e2b := by
                      cases hst2c : st2 with
                      | none =>
                          exfalso
                          have hn1 : (constructAll (buildIdx buildF numQ raw) o1).2 = none :=
                            hstat.mpr (by rw [hca2, hst2c])
                          rw [hca1] at hn1
                          simp at hn1
                      | some e2b => exact ⟨e2b, rfl⟩
                    obtain ⟨e2b, he2b⟩ := hst2
                    subst he2b
                    subst hs12
                    rw [afterParse_construct_err ops numQ buildF raw o1 out0
                        raw.programs (raw.programs.map numQ) raw.pauli_sums hm slots1 e1 hca1,
                      afterParse_construct_err ops numQ buildF raw o2 out0
                        raw.programs (raw.programs.map numQ) raw.pauli_sums hm slots1 e2b hca2]
                    refine ⟨rfl, rfl, ?_⟩
                    constructor
                    · intro h; exact absurd h (by simp)
                    · intro h; exact absurd h (by simp)
                | none =>
                    have hst2n : st2 = none := by
                      cases hst2c : st2 with
                      | none => rfl
                      | some e2b =>
                          exfalso
                          have hn1 : (constructAll (buildIdx buildF numQ raw) o2).2 = none :=
                            hstat.mp (by rw [hca1])
                          rw [hca2, hst2c] at hn1
                          simp at hn1
                    subst hst2n
                    subst hs12
                    rw [afterParse_construct_ok ops numQ buildF raw o1 out0
                        raw.programs (raw.programs.map numQ) raw.pauli_sums hm slots1 hca1,
                      afterParse_construct_ok ops numQ buildF raw o2 out0
                        raw.programs (raw.programs.map numQ) raw.pauli_sums hm slots1 hca2]
                    exact ⟨rfl, rfl, Iff.rfl⟩
      · rw [afterParse_maps_mismatch ops numQ buildF raw o1 out0
            raw.programs (raw.programs.map numQ) raw.pauli_sums hm,
          afterParse_maps_mismatch ops numQ buildF raw o2 out0
            raw.programs (raw.programs.map numQ) raw.pauli_sums hm]
        exact ⟨rfl, rfl, Iff.rfl⟩
    · rw [tfqCompute_rows_mismatch ops numQ buildF raw o1 out0 h4e hc,
        tfqCompute_rows_mismatch ops numQ buildF raw o2 out0 h4e hc]
      exact ⟨rfl, rfl, Iff.rfl⟩

/-- Witness for C5: schedules `[1, 0]` (chunk size 1, reversed dispatch)
and `[0, 1]` (chunk size `B`) of a two-circuit batch agree. -/
theorem c5_schedule_independent_witness :
    (tfqCompute cOps (fun _ : Nat => 1)
        (fun p _ n => (Except.ok (p, [n]) : Except Unit (Nat × List Nat)))
        ⟨4, [5, 6], [7, 8], [[1], [2]], 1⟩ [1, 0] (fun _ _ => 0)).built =
      (tfqCompute cOps (fun _ : Nat => 1)
        (fun p _ n => (Except.ok (p, [n]) : Except Unit (Nat × List Nat)))
        ⟨4, [5, 6], [7, 8], [[1], [2]], 1⟩ [0, 1] (fun _ _ => 0)).built ∧
    (tfqCompute cOps (fun _ : Nat => 1)
        (fun p _ n => (Except.ok (p, [n]) : Except Unit (Nat × List Nat)))
        ⟨4, [5, 6], [7, 8], [[1], [2]], 1⟩ [1, 0] (fun _ _ => 0)).final.out =
      (tfqCompute cOps (fun _ : Nat => 1)
        (fun p _ n => (Except.ok (p, [n]) : Except Unit (Nat × List Nat)))
        ⟨4, [5, 6], [7, 8], [[1], [2]], 1⟩ [0, 1] (fun _ _ => 0)).final.out ∧
    ((tfqCompute cOps (fun _ : Nat => 1)
        (fun p _ n => (Except.ok (p, [n]) : Except Unit (Nat × List Nat)))
        ⟨4, [5, 6], [7, 8], [[1], [2]], 1⟩ [1, 0] (fun _ _ => 0)).status = none ↔
      (tfqCompute cOps (fun _ : Nat => 1)
        (fun p _ n => (Except.ok (p, [n]) : Except Unit (Nat × List Nat)))
        ⟨4, [5, 6], [7, 8], [[1], [2]], 1⟩ [0, 1] (fun _ _ => 0)).status = none) :=
  c5_schedule_independent cOps (fun _ : Nat => 1)
    (fun p _ n => (Except.ok (p, [n]) : Except Unit (Nat × List Nat)))
    ⟨4, [5, 6], [7, 8], [[1], [2]], 1⟩ (fun _ _ => 0) [1, 0] [0, 1]
    (by decide) (by decide)

/-- C8: before any construction or simulation work starts, the op checks
that exactly four inputs are present, that the batched row counts are
consistent across inputs (programs vs observable rows, enforced inside
the parse), and that the number of programs equals the number of
symbol-value rows; each violation fails the invocation with an
`InvalidArgument` status, with no circuit built and no simulation run. -/
theorem c8_precondition_validation (ops : SimOps State Gate Pauli Err)
    (numQ : Prog → Nat)
    (buildF : Prog → SymbolMap → Nat → Except Err (Circ × List Gate))
    (raw : RawInputs Prog SymbolMap Pauli) (order : List Nat) (out0 : Mat) :
    (raw.num_inputs ≠ 4 →
      (tfqCompute ops numQ buildF raw order out0).status = some .invalidArgument ∧
      (tfqCompute ops numQ buildF raw order out0).built = (fun _ => none) ∧
      (tfqCompute ops numQ buildF raw order out0).simRan = false) ∧
    (raw.programs.length ≠ raw.pauli_sums.length →
      (tfqCompute ops numQ buildF raw order out0).status = some .invalidArgument ∧
      (tfqCompute ops numQ buildF raw order out0).built = (fun _ => none) ∧
      (tfqCompute ops numQ buildF raw order out0).simRan = false) ∧
    (raw.programs.length ≠ raw.symbol_maps.length →
      (tfqCompute ops numQ buildF raw order out0).status = some .invalidArgument ∧
      (tfqCompute ops numQ buildF raw order out0).built = (fun _ => none) ∧
      (tfqCompute ops numQ buildF raw order out0).simRan = false) := by
  refine ⟨?_, ?_, ?_⟩
  · intro h
    rw [tfqCompute_not4 ops numQ buildF raw order out0 h]
    exact ⟨rfl, rfl, rfl⟩
  · intro hc
    by_cases h4 : raw.num_inputs ≠ 4
    · rw [tfqCompute_not4 ops numQ buildF raw order out0 h4]
      exact ⟨rfl, rfl, rfl⟩
    · rw [tfqCompute_rows_mismatch ops numQ buildF raw order out0 (not_not.mp h4) hc]
      exact ⟨rfl, rfl, rfl⟩
  · intro hm
    by_cases h4 : raw.num_inputs ≠ 4
    · rw [tfqCompute_not4 ops numQ buildF raw order out0 h4]
      exact ⟨rfl, rfl, rfl⟩
    · by_cases hc : raw.programs.length = raw.pauli_sums.length
      · rw [tfqCompute_parsed ops numQ buildF raw order out0 (not_not.mp h4) hc,
          afterParse_maps_mismatch ops numQ buildF raw order out0
            raw.programs (raw.programs.map numQ) raw.pauli_sums hm]
        exact ⟨rfl, rfl, rfl⟩
      · rw [tfqCompute_rows_mismatch ops numQ buildF raw order out0 (not_not.mp h4) hc]
        exact ⟨rfl, rfl, rfl⟩

/-- Witness for C8: with three inputs the op fails with `InvalidArgument`,
builds nothing, and never simulates. -/
theorem c8_precondition_validation_witness :
    (tfqCompute cOps (fun _ : Nat => 1)
        (fun p _ n => (Except.ok (p, [n]) : Except Unit (Nat × List Nat)))
        ⟨3, [5], [6], [[7]], 1⟩ [0] (fun _ _ => 0)).status = some .invalidArgument ∧
    (tfqCompute cOps (fun _ : Nat => 1)
        (fun p _ n => (Except.ok (p, [n]) : Except Unit (Nat × List Nat)))
        ⟨3, [5], [6], [[7]], 1⟩ [0] (fun _ _ => 0)).built = (fun _ => none) ∧
    (tfqCompute cOps (fun _ : Nat => 1)
        (fun p _ n => (Except.ok (p, [n]) : Except Unit (Nat × List Nat)))
        ⟨3, [5], [6], [[7]], 1⟩ [0] (fun _ _ => 0)).simRan = false :=
  (c8_precondition_validation cOps (fun _ : Nat => 1)
    (fun p _ n => (Except.ok (p, [n]) : Except Unit (Nat × List Nat)))
    ⟨3, [5], [6], [[7]], 1⟩ [0] (fun _ _ => 0)).1 (by decide)

end TfqExpectationCuda
